import Mathlib

/-!
Shallow embedding of the fortunass-auto-publisher core pipeline
(topic allocator, duplicate ledger, content validator/sanitizer,
WordPress publisher with fallback, scheduler, and orchestrator),
translated from the Python sources under `src/`, together with
theorems settling the specification claims.

Text is modelled as `List Char`; the Python case-insensitive matching
(`str.lower` / `re.IGNORECASE`) is modelled with `Char.toLower`
(ASCII case folding, which covers every pattern the code matches).
-/

namespace Fortunass

/-- Python `str`, modelled as a list of characters. -/
abbrev Text := List Char

/-- Python `str.lower()` (ASCII case folding). -/
def lowerText (s : Text) : Text := s.map Char.toLower

/-- Occurrence predicate: `w` occurs in `s` under case-insensitive matching
(Python `w.lower() in s.lower()` / `re.IGNORECASE` search). -/
def occursCI (w s : Text) : Prop := lowerText w <:+: lowerText s

instance (w s : Text) : Decidable (occursCI w s) := by
  unfold occursCI; infer_instance

/-! ## src/data/topic_data.py -/

def CARD_TYPES : List Text := ["tarot".toList, "numerology".toList, "oracle".toList]

def MBTI_TYPES : List Text :=
  ["INTJ".toList, "INTP".toList, "ENTJ".toList, "ENTP".toList,
   "INFJ".toList, "INFP".toList, "ENFJ".toList, "ENFP".toList,
   "ISTJ".toList, "ISFJ".toList, "ESTJ".toList, "ESFJ".toList,
   "ISTP".toList, "ISFP".toList, "ESTP".toList, "ESFP".toList]

def LOVE_SITUATIONS : List Text :=
  ["연애 불안 (relationship anxiety)".toList,
   "밀당 (push-pull dynamics)".toList,
   "애착 유형 (attachment style)".toList,
   "거리감 (emotional distance)".toList,
   "재회 고민 (reconciliation concerns)".toList,
   "이별 후 감정 (post-breakup emotions)".toList,
   "짝사랑 (unrequited love)".toList,
   "권태기 (relationship boredom)".toList,
   "신뢰 문제 (trust issues)".toList,
   "소통 단절 (communication breakdown)".toList,
   "질투와 집착 (jealousy and obsession)".toList,
   "사랑과 자존감 (love and self-esteem)".toList,
   "결혼 고민 (marriage concerns)".toList,
   "연상/연하 관계 (age gap relationship)".toList,
   "장거리 연애 (long-distance relationship)".toList,
   "감정 표현 어려움 (difficulty expressing emotions)".toList,
   "상대방 마음 읽기 (reading partner".toList ++ [Char.ofNat 39] ++ "s mind)".toList,
   "관계 패턴 반복 (repeating relationship patterns)".toList,
   "헤어짐 후 미련 (lingering attachment after breakup)".toList,
   "새로운 시작 고민 (concerns about new beginning)".toList]

def TAROT_MAJOR_ARCANA : List Text :=
  ["The Fool".toList, "The Magician".toList, "The High Priestess".toList,
   "The Empress".toList, "The Emperor".toList, "The Hierophant".toList,
   "The Lovers".toList, "The Chariot".toList, "Strength".toList,
   "The Hermit".toList, "Wheel of Fortune".toList, "Justice".toList,
   "The Hanged Man".toList, "Death".toList, "Temperance".toList,
   "The Devil".toList, "The Tower".toList, "The Star".toList,
   "The Moon".toList, "The Sun".toList, "Judgement".toList, "The World".toList]

def TAROT_KOREAN : List (Text × Text) :=
  [("The Fool".toList, "바보".toList), ("The Magician".toList, "마법사".toList),
   ("The High Priestess".toList, "여사제".toList), ("The Empress".toList, "여황제".toList),
   ("The Emperor".toList, "황제".toList), ("The Hierophant".toList, "교황".toList),
   ("The Lovers".toList, "연인".toList), ("The Chariot".toList, "전차".toList),
   ("Strength".toList, "힘".toList), ("The Hermit".toList, "은둔자".toList),
   ("Wheel of Fortune".toList, "운명의 수레바퀴".toList), ("Justice".toList, "정의".toList),
   ("The Hanged Man".toList, "매달린 사람".toList), ("Death".toList, "죽음".toList),
   ("Temperance".toList, "절제".toList), ("The Devil".toList, "악마".toList),
   ("The Tower".toList, "탑".toList), ("The Star".toList, "별".toList),
   ("The Moon".toList, "달".toList), ("The Sun".toList, "태양".toList),
   ("Judgement".toList, "심판".toList), ("The World".toList, "세계".toList)]

def NUMEROLOGY_NUMBERS : List Text :=
  ["1".toList, "2".toList, "3".toList, "4".toList, "5".toList, "6".toList,
   "7".toList, "8".toList, "9".toList, "11".toList, "22".toList, "33".toList]

def NUMEROLOGY_KOREAN : List (Text × Text) :=
  [("1".toList, "숫자 1 (리더십과 독립)".toList),
   ("2".toList, "숫자 2 (조화와 파트너십)".toList),
   ("3".toList, "숫자 3 (창의성과 표현)".toList),
   ("4".toList, "숫자 4 (안정과 기반)".toList),
   ("5".toList, "숫자 5 (변화와 자유)".toList),
   ("6".toList, "숫자 6 (사랑과 책임)".toList),
   ("7".toList, "숫자 7 (영적 탐구)".toList),
   ("8".toList, "숫자 8 (힘과 성취)".toList),
   ("9".toList, "숫자 9 (완성과 나눔)".toList),
   ("11".toList, "마스터 넘버 11 (직관과 영감)".toList),
   ("22".toList, "마스터 넘버 22 (실현과 비전)".toList),
   ("33".toList, "마스터 넘버 33 (사랑과 치유)".toList)]

def ORACLE_CARDS : List Text :=
  ["New Beginnings".toList, "Trust Your Path".toList, "Release and Let Go".toList,
   "Divine Timing".toList, "Self Love".toList, "Healing Heart".toList,
   "Soul Connection".toList, "Inner Wisdom".toList, "Transformation".toList,
   "Boundaries".toList, "Forgiveness".toList, "Clarity".toList,
   "Patience".toList, "Courage".toList, "Balance".toList,
   "Authenticity".toList, "Gratitude".toList, "Hope".toList,
   "Surrender".toList, "Manifesting Love".toList]

def ORACLE_KOREAN : List (Text × Text) :=
  [("New Beginnings".toList, "새로운 시작".toList),
   ("Trust Your Path".toList, "길을 믿기".toList),
   ("Release and Let Go".toList, "놓아주기".toList),
   ("Divine Timing".toList, "신성한 타이밍".toList),
   ("Self Love".toList, "자기 사랑".toList),
   ("Healing Heart".toList, "치유하는 마음".toList),
   ("Soul Connection".toList, "영혼의 연결".toList),
   ("Inner Wisdom".toList, "내면의 지혜".toList),
   ("Transformation".toList, "변화".toList),
   ("Boundaries".toList, "경계 설정".toList),
   ("Forgiveness".toList, "용서".toList),
   ("Clarity".toList, "명확함".toList),
   ("Patience".toList, "인내".toList),
   ("Courage".toList, "용기".toList),
   ("Balance".toList, "균형".toList),
   ("Authenticity".toList, "진정성".toList),
   ("Gratitude".toList, "감사".toList),
   ("Hope".toList, "희망".toList),
   ("Surrender".toList, "맡기기".toList),
   ("Manifesting Love".toList, "사랑 현실화".toList)]

/-- The list `FORBIDDEN_WORDS` from `topic_data.py` (note the duplicated `"100%"`,
exactly as in the source). -/
def FORBIDDEN_WORDS : List Text :=
  ["definitely".toList, "guaranteed".toList, "100%".toList,
   "must happen".toList, "will happen".toList, "certain".toList,
   "확실히".toList, "반드시".toList, "틀림없이".toList,
   "보장".toList, "무조건".toList, "100%".toList]

/-! ## src/utils/database.py (`TopicDatabase`)

The SQLite table `published_topics` is modelled as an append-only list of
rows; statuses and messages are `Text`. -/

structure Entry where
  mbti : Text
  love_situation : Text
  tarot_card : Text
  title : Text
  post_id : Option Nat
  post_url : Option Text
  status : Text
  error_message : Option Text
  deriving DecidableEq, Repr

/-- The ledger: the rows of `published_topics` in insertion order. -/
abbrev Ledger := List Entry

/-- Python `TopicDatabase.is_topic_used`: `SELECT COUNT(*) ... WHERE mbti = ? AND
love_situation = ? AND tarot_card = ?` compared with 0. -/
def is_topic_used (db : Ledger) (mbti love_situation tarot_card : Text) : Bool :=
  db.any fun e =>
    decide (e.mbti = mbti ∧ e.love_situation = love_situation ∧ e.tarot_card = tarot_card)

/-- Python `TopicDatabase.save_published_topic`: `INSERT INTO published_topics ...`. -/
def save_published_topic (db : Ledger) (mbti love_situation tarot_card title : Text)
    (post_id : Option Nat) (post_url : Option Text) (status : Text)
    (error_message : Option Text) : Ledger :=
  db ++ [{ mbti := mbti, love_situation := love_situation, tarot_card := tarot_card,
           title := title, post_id := post_id, post_url := post_url,
           status := status, error_message := error_message }]

/-- Result of `TopicDatabase.get_stats` (the `by_status` dictionary is
modelled by the per-status count function). -/
structure Stats where
  total_published : Nat
  by_status : Text → Nat
  success_rate : ℚ

/-- Python `round` half-to-even tie-breaking, on exact rationals. -/
def roundHalfEven (q : ℚ) : ℤ :=
  let f := ⌊q⌋
  if q - f < 1/2 then f
  else if q - f > 1/2 then f + 1
  else if f % 2 = 0 then f else f + 1

/-- Python `round(x, 2)` on exact rationals. -/
def round2 (q : ℚ) : ℚ := (roundHalfEven (q * 100) : ℚ) / 100

/-- Number of ledger rows with the given status
(one bucket of the `GROUP BY status` query). -/
def statusCount (db : Ledger) (s : Text) : Nat :=
  db.countP fun e => decide (e.status = s)

/-- Python `TopicDatabase.get_stats`. -/
def get_stats (db : Ledger) : Stats :=
  let total := db.length
  let success_count := statusCount db ("publish".toList) + statusCount db ("draft".toList)
  { total_published := total
    by_status := fun s => statusCount db s
    success_rate :=
      if total > 0 then round2 ((success_count : ℚ) / (total : ℚ) * 100) else 0 }

/-! ## src/generators/topic_generator.py (`TopicGenerator`) -/

/-- One draw of the four `random.choice` calls of a probe attempt,
given as raw indices into the respective lists. -/
structure Draw where
  mbtiIdx : Nat
  loveIdx : Nat
  typeIdx : Nat
  cardIdx : Nat

/-- Python `random.choice(xs)` with the randomness supplied as an index. -/
def choice (xs : List Text) (n : Nat) : Text := xs.getD (n % xs.length) []

/-- Dictionary lookup (`TAROT_KOREAN[card_name]` etc.). -/
def dictGet (d : List (Text × Text)) (k : Text) : Text :=
  match d.find? (fun p => decide (p.1 = k)) with
  | some p => p.2
  | none => []

structure Topic where
  mbti : Text
  love_situation : Text
  card_type : Text
  card_name : Text
  card_korean : Text
  tarot_card : Text
  tarot_korean : Text
  deriving DecidableEq, Repr

/-- The candidate topic built from the draws of one probe attempt
(body of the loop in `generate_unique_topic`). -/
def topicOfDraw (d : Draw) : Topic :=
  let mbti := choice MBTI_TYPES d.mbtiIdx
  let love_situation := choice LOVE_SITUATIONS d.loveIdx
  let card_type := choice CARD_TYPES d.typeIdx
  let card_name :=
    if card_type = "tarot".toList then choice TAROT_MAJOR_ARCANA d.cardIdx
    else if card_type = "numerology".toList then choice NUMEROLOGY_NUMBERS d.cardIdx
    else choice ORACLE_CARDS d.cardIdx
  let card_korean :=
    if card_type = "tarot".toList then dictGet TAROT_KOREAN card_name
    else if card_type = "numerology".toList then dictGet NUMEROLOGY_KOREAN card_name
    else dictGet ORACLE_KOREAN card_name
  { mbti := mbti, love_situation := love_situation, card_type := card_type,
    card_name := card_name, card_korean := card_korean,
    tarot_card := card_name, tarot_korean := card_korean }

/-- The `RuntimeError` message raised on exhaustion. -/
def exhaustionMsg : Text :=
  "Unable to generate unique topic after 100 attempts. Database may be exhausted.".toList

/-- The probe loop `for attempt in range(self.max_attempts)`, returning the
topic together with the number of probes performed.  `draws` is the stream of
random draws, one per attempt. -/
def genLoop (db : Ledger) (draws : Nat → Draw) : Nat → Nat → (Except Text Topic × Nat)
  | fuel, attempt =>
    match fuel with
    | 0 => (Except.error exhaustionMsg, attempt)
    | fuel + 1 =>
      let t := topicOfDraw (draws attempt)
      if is_topic_used db t.mbti t.love_situation t.card_name then
        genLoop db draws fuel (attempt + 1)
      else
        (Except.ok t, attempt + 1)

/-- Python `TopicGenerator.generate_unique_topic` (`max_attempts = 100`); a
`RuntimeError` is modelled as `Except.error`. -/
def generate_unique_topic (db : Ledger) (draws : Nat → Draw) : Except Text Topic :=
  (genLoop db draws 100 0).1

/-- Number of probe attempts `generate_unique_topic` performs. -/
def probesUsed (db : Ledger) (draws : Nat → Draw) : Nat :=
  (genLoop db draws 100 0).2

/-- Inputs of one allocate-and-record cycle: the random draws used by the
allocation, plus the metadata the caller records alongside the key
(title, post reference, status, error — all arbitrary). -/
structure CycleInput where
  draws : Nat → Draw
  title : Text
  post_id : Option Nat
  post_url : Option Text
  status : Text
  error_message : Option Text

/-- One allocate-and-record cycle per list element: each cycle calls
`generate_unique_topic` and, on success, `save_published_topic` with the
returned topic; the recorded keys are returned in order.  A failed
allocation ends the sequence (no record is written for it). -/
def cycleKeys (db : Ledger) : List CycleInput → List (Text × Text × Text)
  | [] => []
  | ci :: rest =>
    match generate_unique_topic db ci.draws with
    | Except.error _ => []
    | Except.ok t =>
      (t.mbti, t.love_situation, t.card_name) ::
        cycleKeys (save_published_topic db t.mbti t.love_situation t.tarot_card
          ci.title ci.post_id ci.post_url ci.status ci.error_message) rest

/-! ## src/validators/content_validator.py (`ContentValidator`) -/

/-- Characters matched by the regex class `\s` (ASCII part plus the
Latin-1/Unicode spaces that Python `re` recognises). -/
def isSpaceChar (c : Char) : Bool :=
  c = ' ' ∨ c = '\t' ∨ c = '\n' ∨ c = '\r' ∨ c = '\x0b' ∨ c = '\x0c' ∨
  c = '\x1c' ∨ c = '\x1d' ∨ c = '\x1e' ∨ c = '\x1f' ∨ c = '\x85' ∨ c = '\xa0'

/-- Index of the last whitespace position `k ≥ 1` in `w` that is not a
newline (the backtracking step of `\s+` when the greedy run reaches the end
of the string). -/
def lastNonNewlineIdx (w : Text) : Option Nat :=
  ((List.range w.length).filter fun j => decide (1 ≤ j) && decide (w.getD j '\n' ≠ '\n')).getLast?

/-- Length of the match of `^##\s+.+$` starting at the head of `s`
(which the caller guarantees is at a line start), or `none`.
Greedy `\s+` with backtracking: the whitespace run may span newlines,
and `.+` then runs to the end of that line. -/
def h2MatchLen (s : Text) : Option Nat :=
  match s with
  | '#' :: '#' :: u =>
    let w := u.takeWhile isSpaceChar
    if w.isEmpty then none
    else
      let rest := u.drop w.length
      if rest.isEmpty then
        match lastNonNewlineIdx w with
        | none => none
        | some k => some (2 + k + ((u.drop k).takeWhile fun c => decide (c ≠ '\n')).length)
      else some (2 + w.length + (rest.takeWhile fun c => decide (c ≠ '\n')).length)
  | _ => none

/-- The multiline `re.findall` scan for the pattern `^##\s+.+$`: walk the
text, attempting a match at every line start and resuming after each match.
`fuel` bounds the recursion (each step consumes at least one character). -/
def h2Scan : Nat → Bool → Text → Nat
  | 0, _, _ => 0
  | _ + 1, _, [] => 0
  | fuel + 1, atStart, c :: rest =>
    if atStart then
      match h2MatchLen (c :: rest) with
      | some n => 1 + h2Scan fuel false ((c :: rest).drop n)
      | none => h2Scan fuel (decide (c = '\n')) rest
    else h2Scan fuel (decide (c = '\n')) rest

/-- Number of matches of `^##\s+.+$` in `content` (multiline). -/
def countH2 (content : Text) : Nat := h2Scan (content.length + 1) true content

def required_disclaimer : Text := "참고 자료일 뿐".toList

/-- Python `ContentValidator._check_forbidden_words`. -/
def _check_forbidden_words (text : Text) : List Text :=
  FORBIDDEN_WORDS.filter fun w => decide (occursCI w text)

/-- Python `ContentValidator._check_disclaimer`. -/
def _check_disclaimer (content : Text) : Bool :=
  decide (required_disclaimer <:+: content)

/-- Python `ContentValidator._check_seo_structure`: at least 3 H2 matches. -/
def _check_seo_structure (content : Text) : Bool :=
  decide (3 ≤ countH2 content)

/-- Python `ContentValidator.validate`. -/
def validate (title content : Text) : Bool × List Text :=
  let forbidden_found := _check_forbidden_words (title ++ (" ".toList) ++ content)
  let issues :=
    (if forbidden_found.isEmpty then [] else
      [("Found forbidden words: ".toList) ++ List.intercalate (", ".toList) forbidden_found]) ++
    (if _check_disclaimer content then [] else ["Missing required disclaimer".toList]) ++
    (if _check_seo_structure content then [] else
      ["Missing proper H2/H3 heading structure".toList]) ++
    (if content.length < 1000 then
      [("Content too short: ".toList) ++ (Nat.repr content.length).toList ++
        (" characters (minimum 1000)".toList)]
     else [])
  (issues.isEmpty, issues)

/-- Scanner of `re.sub`: at each position, if the (lowercased) pattern is
a prefix of the (lowercased) remaining text, emit the replacement and skip
the match, else copy one character.  Structural recursion on `fuel`, which
the wrapper sets to the text length (every step consumes at least one
character, so the fuel is never exhausted). -/
def replaceAllGo (k v : Text) : Nat → Text → Text
  | _, [] => []
  | 0, s => s
  | fuel + 1, c :: t =>
    if (lowerText k).isPrefixOf (lowerText (c :: t)) && !k.isEmpty then
      v ++ replaceAllGo k v fuel ((c :: t).drop k.length)
    else
      c :: replaceAllGo k v fuel t

/-- Python `re.compile(re.escape(forbidden), re.IGNORECASE).sub(replacement, s)`:
replace every (leftmost, non-overlapping) case-insensitive occurrence of
`k` in the text by `v`. -/
def replaceAll (k v s : Text) : Text := replaceAllGo k v s.length s

/-- The substitution table of `ContentValidator.sanitize_content`,
in dictionary insertion order. -/
def REPLACEMENTS : List (Text × Text) :=
  [("definitely".toList, "likely".toList),
   ("guaranteed".toList, "possible".toList),
   ("100%".toList, "highly".toList),
   ("must happen".toList, "may happen".toList),
   ("will happen".toList, "might happen".toList),
   ("certain".toList, "probable".toList),
   ("확실히".toList, "아마도".toList),
   ("반드시".toList, "가능하면".toList),
   ("틀림없이".toList, "그럴 수 있습니다".toList),
   ("보장".toList, "가능성".toList),
   ("무조건".toList, "경우에 따라".toList)]

/-- Python `ContentValidator.sanitize_content`. -/
def sanitize_content (content : Text) : Text :=
  REPLACEMENTS.foldl (fun acc p => replaceAll p.1 p.2 acc) content

/-! ## src/publishers/wordpress_publisher.py (`WordPressPublisher`) -/

/-- Outcome of one HTTP attempt of `publish_post` (the POST either yields a
created post or raises a `RequestException` with a message). -/
inductive Attempt where
  | ok (post_id : Nat) (link : Text)
  | err (msg : Text)

/-- The fields of the response dictionary `publish_post` returns on
success; WordPress reports the status of the created post, which is the
requested one. -/
structure PostResult where
  post_id : Nat
  link : Text
  status : Text
  deriving DecidableEq

/-- Python `publish_post` under the tenacity policy
`retry(stop=stop_after_attempt(3), reraise=True)`: up to three attempts,
the last exception is re-raised (`Except.error`).  `attempts` is the
outcome the environment supplies for each HTTP attempt of this call. -/
def publish_post (status : Text) (attempts : Nat → Attempt) : Except Text PostResult :=
  match attempts 0 with
  | Attempt.ok pid link => Except.ok ⟨pid, link, status⟩
  | Attempt.err _ =>
    match attempts 1 with
    | Attempt.ok pid link => Except.ok ⟨pid, link, status⟩
    | Attempt.err _ =>
      match attempts 2 with
      | Attempt.ok pid link => Except.ok ⟨pid, link, status⟩
      | Attempt.err e2 => Except.error e2

/-- Result of `publish_with_fallback`: either the success dictionary of
`publish_post` (with `fallback_used` set when the draft fallback succeeded)
or the `{success: False, error: ...}` dictionary. -/
inductive FBResult where
  | ok (r : PostResult) (fallback_used : Bool)
  | failed (error : Text)
  deriving DecidableEq

/-- Python `publish_with_fallback`, together with the list of statuses passed to
the successive `publish_post` calls it makes (for counting calls). -/
def publish_with_fallback (preferred : Text) (aPref aDraft : Nat → Attempt) :
    FBResult × List Text :=
  match publish_post preferred aPref with
  | Except.ok r => (FBResult.ok r false, [preferred])
  | Except.error _ =>
    match publish_post ("draft".toList) aDraft with
    | Except.ok r => (FBResult.ok r true, [preferred, "draft".toList])
    | Except.error e => (FBResult.failed e, [preferred, "draft".toList])

/-! ## src/utils/schedule.py -/

/-- A `datetime.datetime`, with the date collapsed to an ordinal day
number (the code only ever adds whole days). -/
structure DateTime where
  day : Nat
  hour : Nat
  minute : Nat
  second : Nat
  micro : Nat
  deriving DecidableEq, Repr

/-- Python `datetime` comparison (lexicographic). -/
def dtLt (a b : DateTime) : Prop :=
  a.day < b.day ∨ (a.day = b.day ∧
    (a.hour < b.hour ∨ (a.hour = b.hour ∧
      (a.minute < b.minute ∨ (a.minute = b.minute ∧
        (a.second < b.second ∨ (a.second = b.second ∧ a.micro < b.micro)))))))

instance (a b : DateTime) : Decidable (dtLt a b) := by
  unfold dtLt; infer_instance

/-- Python `now.replace(hour=h, minute=m, second=0, microsecond=0)`. -/
def replaceHM (now : DateTime) (h m : Nat) : DateTime :=
  { day := now.day, hour := h, minute := m, second := 0, micro := 0 }

/-- Python `get_next_publish_time`, with the current time and the
`random.randint(0, 59)` draw passed explicitly.  The loop over
`target_times = [10, 14, 18]` is unrolled; the fallback is the next day at
10:xx. -/
def get_next_publish_time (now : DateTime) (random_minute : Nat) : DateTime :=
  let t10 := replaceHM now 10 random_minute
  if dtLt now t10 then t10
  else
    let t14 := replaceHM now 14 random_minute
    if dtLt now t14 then t14
    else
      let t18 := replaceHM now 18 random_minute
      if dtLt now t18 then t18
      else { day := now.day + 1, hour := 10, minute := random_minute, second := 0, micro := 0 }

/-- Python `should_schedule`: publish immediately iff the current hour is inside
one of the windows 9–11, 13–15, 17–19. -/
def should_schedule (now : DateTime) : Bool :=
  if (9 ≤ now.hour ∧ now.hour < 11) ∨ (13 ≤ now.hour ∧ now.hour < 15) ∨
     (17 ≤ now.hour ∧ now.hour < 19) then
    false
  else
    true

/-! ## src/orchestrator.py (`ContentPublisher`) -/

/-- The mutable fields of a `ContentPublisher` instance that the claims
concern: the configured publish status, the auto-sanitize flag, the
schedule offset, and the ledger held by its `TopicDatabase`. -/
structure PublisherState where
  publish_status : Text
  auto_sanitize : Bool
  schedule_hours : Option Nat
  db : Ledger

/-- External-world inputs of a single `run()`: the answer of the content oracle
(`ContentGenerator.generate_content`, an `Except` since exhausting its
retries raises), the random draws of the topic probe loop, and the HTTP
outcomes for the preferred-status and draft `publish_post` calls.
Category/tag creation only talks to the CMS and never affects the ledger,
the statuses, or control flow (its failures are caught), so it is elided. -/
structure RunEnv where
  contentResult : Except Text (Text × Text)
  draws : Nat → Draw
  prefAttempts : Nat → Attempt
  draftAttempts : Nat → Attempt

/-- Observable outcome of one `run()`: the boolean it returns, the updated
instance state, the ledger rows it appended, the `preferred_status` it
passed to `publish_with_fallback` (`none` when the run aborted before
publishing), and the publish result. -/
structure RunResult where
  success : Bool
  state : PublisherState
  newEntries : List Entry
  preferredUsed : Option Text
  pubResult : Option FBResult

/-- Python `ContentPublisher.run`. -/
def run (st : PublisherState) (env : RunEnv) : RunResult :=
  match generate_unique_topic st.db env.draws with
  | Except.error _ => ⟨false, st, [], none, none⟩
  | Except.ok topic =>
    match env.contentResult with
    | Except.error _ => ⟨false, st, [], none, none⟩
    | Except.ok (title, content0) =>
      let v1 := validate title content0
      let content :=
        if v1.1 then content0
        else if st.auto_sanitize then sanitize_content content0 else content0
      let valid2 := if v1.1 then true else (validate title content).1
      let st1 := if valid2 then st else { st with publish_status := "draft".toList }
      let fb := publish_with_fallback st1.publish_status env.prefAttempts env.draftAttempts
      match fb.1 with
      | FBResult.ok r _ =>
        let entry : Entry := ⟨topic.mbti, topic.love_situation, topic.tarot_card, title,
          some r.post_id, some r.link, r.status, none⟩
        ⟨true, { st1 with db := st1.db ++ [entry] }, [entry],
          some st1.publish_status, some fb.1⟩
      | FBResult.failed e =>
        let entry : Entry := ⟨topic.mbti, topic.love_situation, topic.tarot_card, title,
          none, none, "failed".toList, some e⟩
        ⟨false, { st1 with db := st1.db ++ [entry] }, [entry],
          some st1.publish_status, some fb.1⟩

/-! ## Auxiliary definitions: spec-side notions and witness fixtures -/

/-- Python `content.split` at newlines — the notion of lines used by the
claim. -/
def linesOf : Text → List Text
  | [] => [[]]
  | c :: t =>
    if c = '\n' then [] :: linesOf t
    else
      match linesOf t with
      | [] => [[c]]
      | l :: ls => (c :: l) :: ls

/-- Modelled from the claim wording of rule (3): the body contains at
least 3 lines matching the literal `"## "` prefix marker. -/
def claimHeadingRule (content : Text) : Prop :=
  3 ≤ (linesOf content).countP fun l => ("## ".toList).isPrefixOf l

/-- The preferred publish windows of the day, from the spec: the hour
ranges 9–11, 13–15 and 17–19. -/
def inPublishWindow (h : Nat) : Prop :=
  (9 ≤ h ∧ h < 11) ∨ (13 ≤ h ∧ h < 15) ∨ (17 ≤ h ∧ h < 19)

/-- Safety conditions under which a `replaceAll k v` pass cannot leave or
create an occurrence of the (lowercase) word `X`: the word does not occur
in the replacement, no nonempty suffix of the replacement is a prefix of
the word, no nonempty prefix of the replacement is a suffix of the word
(other than the word itself), and the replacement does not occur inside
the word other than at its start. -/
def SafePair (X k v : Text) : Prop :=
  k ≠ [] ∧ v ≠ [] ∧ X ≠ [] ∧
  ¬ X <:+: lowerText v ∧
  (∀ n, n < (lowerText v).length → (lowerText v).drop n <+: X → (lowerText v).drop n = X) ∧
  (∀ n, n < (lowerText v).length → (lowerText v).take (n + 1) <:+ X →
    (lowerText v).take (n + 1) = X) ∧
  (∀ i, i < X.length → ¬ lowerText v <+: X.drop (i + 1))

instance (X k v : Text) : Decidable (SafePair X k v) := by
  unfold SafePair
  infer_instance

/-- The fold step of the sanitizer. -/
def sanitizeStep (acc : Text) (p : Text × Text) : Text := replaceAll p.1 p.2 acc

/-- Environment pieces for the C7 witness: the preferred-status call always
fails, the draft call succeeds immediately. -/
def aPrefFail : Nat → Attempt := fun _ => Attempt.err ("HTTP 500".toList)

def aDraftOk : Nat → Attempt := fun _ => Attempt.ok 7 ("http://x".toList)

/-- A publisher instance configured for public status, and an environment
whose generated body fails validation even after sanitizing. -/
def stPub : PublisherState := ⟨"publish".toList, true, none, []⟩

def envBad : RunEnv :=
  ⟨Except.ok ("T".toList, "x".toList), fun _ => ⟨0, 0, 0, 0⟩, aPrefFail, aDraftOk⟩

/-- A tail supplying three `## ` headings and the disclaimer; prefixing it
with 1000 `z`s gives a body that passes validation. -/
def goodTail : Text := "\n## a\n## b\n## c\n참고 자료일 뿐".toList

def goodBody : Text := List.replicate 1000 (Char.ofNat 122) ++ goodTail

def envGood : RunEnv :=
  ⟨Except.ok ("T".toList, goodBody), fun _ => ⟨1, 0, 0, 0⟩, aPrefFail, aDraftOk⟩

/-- The counterexample body: tab-separated headings, which the code's
regex `^##\s+.+$` accepts but the `"## "` prefix marker of the claim does not. -/
def ceTail : Text := "\n##\tA\n##\tB\n##\tC\n참고 자료일 뿐".toList

def ceBody : Text := List.replicate 1000 (Char.ofNat 122) ++ ceTail

/-- All card names of the three vocabularies (used by the C4 witness). -/
def allCardNames : List Text := TAROT_MAJOR_ARCANA ++ NUMEROLOGY_NUMBERS ++ ORACLE_CARDS

/-- A ledger in which every combination of the topic space is recorded. -/
def dbAllUsed : Ledger :=
  MBTI_TYPES.flatMap fun m => LOVE_SITUATIONS.flatMap fun l =>
    allCardNames.map fun c => ⟨m, l, c, [], none, none, "draft".toList, none⟩

/-! ## Helper lemmas -/

theorem replaceAllGo_fuel (k v : Text) :
    ∀ fuel fuel' s, s.length ≤ fuel → s.length ≤ fuel' →
      replaceAllGo k v fuel s = replaceAllGo k v fuel' s := by
  intro fuel
  induction fuel with
  | zero =>
    intro fuel' s hs _
    have : s = [] := List.length_eq_zero.mp (Nat.le_zero.mp hs)
    subst this
    cases fuel' <;> rfl
  | succ n ih =>
    intro fuel' s hs hs'
    cases s with
    | nil => cases fuel' <;> rfl
    | cons c t =>
      cases fuel' with
      | zero => simp at hs'
      | succ n' =>
        rw [replaceAllGo, replaceAllGo]
        by_cases hb : ((lowerText k).isPrefixOf (lowerText (c :: t)) && !k.isEmpty) = true
        · rw [hb]
          rw [if_pos rfl, if_pos rfl]
          have hk : 1 ≤ k.length := by
            cases k with
            | nil => simp at hb
            | cons a l => simp
          have hlen : ((c :: t).drop k.length).length ≤ n := by
            simp only [List.length_drop, List.length_cons]
            simp only [List.length_cons] at hs
            omega
          have hlen' : ((c :: t).drop k.length).length ≤ n' := by
            simp only [List.length_drop, List.length_cons]
            simp only [List.length_cons] at hs'
            omega
          rw [ih _ _ hlen hlen']
        · rw [if_neg hb, if_neg hb]
          have hlen : t.length ≤ n := by simp at hs; omega
          have hlen' : t.length ≤ n' := by simp at hs'; omega
          rw [ih _ _ hlen hlen']

theorem replaceAll_nil (k v : Text) : replaceAll k v [] = [] := rfl

theorem replaceAll_cons (k v : Text) (c : Char) (t : Text) :
    replaceAll k v (c :: t) =
      if (lowerText k).isPrefixOf (lowerText (c :: t)) && !k.isEmpty then
        v ++ replaceAll k v ((c :: t).drop k.length)
      else
        c :: replaceAll k v t := by
  unfold replaceAll
  rw [show (c :: t).length = t.length + 1 from rfl, replaceAllGo]
  by_cases hb : ((lowerText k).isPrefixOf (lowerText (c :: t)) && !k.isEmpty) = true
  · rw [hb]
    rw [if_pos rfl, if_pos rfl]
    have hk : 1 ≤ k.length := by
      cases k with
      | nil => simp at hb
      | cons a l => simp
    rw [replaceAllGo_fuel k v t.length ((c :: t).drop k.length).length _ ?_ le_rfl]
    simp only [List.length_drop, List.length_cons]
    omega
  · rw [if_neg hb, if_neg hb]

theorem is_topic_used_append (db db' : Ledger) (m l c : Text) :
    is_topic_used (db ++ db') m l c = (is_topic_used db m l c || is_topic_used db' m l c) := by
  simp [is_topic_used, List.any_append]

theorem choice_mem (xs : List Text) (n : Nat) (hxs : xs ≠ []) : choice xs n ∈ xs := by
  have hlen : 0 < xs.length := List.length_pos.mpr hxs
  have hlt : n % xs.length < xs.length := Nat.mod_lt _ hlen
  unfold choice
  rw [List.getD_eq_getElem xs [] hlt]
  exact List.getElem_mem hlt

theorem topicOfDraw_card (d : Draw) :
    (topicOfDraw d).tarot_card = (topicOfDraw d).card_name ∧
    ((topicOfDraw d).card_name ∈ TAROT_MAJOR_ARCANA ∨
      (topicOfDraw d).card_name ∈ NUMEROLOGY_NUMBERS ∨
      (topicOfDraw d).card_name ∈ ORACLE_CARDS) ∧
    (topicOfDraw d).mbti ∈ MBTI_TYPES ∧
    (topicOfDraw d).love_situation ∈ LOVE_SITUATIONS := by
  have hc : (topicOfDraw d).card_name =
      (if choice CARD_TYPES d.typeIdx = "tarot".toList then
        choice TAROT_MAJOR_ARCANA d.cardIdx
       else if choice CARD_TYPES d.typeIdx = "numerology".toList then
        choice NUMEROLOGY_NUMBERS d.cardIdx
       else choice ORACLE_CARDS d.cardIdx) := rfl
  refine ⟨rfl, ?_, choice_mem _ _ (by decide), choice_mem _ _ (by decide)⟩
  rw [hc]
  split
  · exact Or.inl (choice_mem _ _ (by decide))
  · split
    · exact Or.inr (Or.inl (choice_mem _ _ (by decide)))
    · exact Or.inr (Or.inr (choice_mem _ _ (by decide)))

theorem genLoop_ok (db : Ledger) (draws : Nat → Draw) (t : Topic) :
    ∀ fuel attempt, (genLoop db draws fuel attempt).1 = Except.ok t →
      is_topic_used db t.mbti t.love_situation t.card_name = false ∧
      t.tarot_card = t.card_name := by
  intro fuel
  induction fuel with
  | zero => intro attempt h; simp [genLoop] at h
  | succ n ih =>
    intro attempt h
    rw [genLoop] at h
    by_cases hu : is_topic_used db (topicOfDraw (draws attempt)).mbti
        (topicOfDraw (draws attempt)).love_situation (topicOfDraw (draws attempt)).card_name
    · simp only [hu, if_true] at h
      exact ih _ h
    · simp only [hu, Bool.false_eq_true, if_false] at h
      obtain rfl : topicOfDraw (draws attempt) = t := by
        simpa using h
      exact ⟨by simpa using hu, (topicOfDraw_card _).1⟩

theorem generate_unique_topic_fresh (db : Ledger) (draws : Nat → Draw) (t : Topic)
    (h : generate_unique_topic db draws = Except.ok t) :
    is_topic_used db t.mbti t.love_situation t.card_name = false ∧
    t.tarot_card = t.card_name :=
  genLoop_ok db draws t 100 0 h

theorem cycleKeys_fresh (cis : List CycleInput) :
    ∀ (db : Ledger) k, k ∈ cycleKeys db cis →
      is_topic_used db k.1 k.2.1 k.2.2 = false := by
  induction cis with
  | nil => intro db k h; simp [cycleKeys] at h
  | cons ci rest ih =>
    intro db k h
    rw [cycleKeys] at h
    cases hg : generate_unique_topic db ci.draws with
    | error e => rw [hg] at h; simp at h
    | ok t =>
      rw [hg] at h
      obtain ⟨hfresh, hcard⟩ := generate_unique_topic_fresh db ci.draws t hg
      rcases List.mem_cons.mp h with rfl | hmem
      · exact hfresh
      · have h2 := ih _ k hmem
        rw [save_published_topic, is_topic_used_append] at h2
        exact (Bool.or_eq_false_iff.mp h2).1

/-! ## Generic list helpers for occurrence analysis -/

theorem prefix_append_cases {α : Type} {w a b : List α} (h : w <+: a ++ b) :
    w <+: a ∨ ∃ w₂, w = a ++ w₂ ∧ w₂ <+: b := by
  induction a generalizing w with
  | nil => exact Or.inr ⟨w, by simp, by simpa using h⟩
  | cons c a2 ih =>
    cases w with
    | nil => exact Or.inl List.nil_prefix
    | cons d w2 =>
      rw [List.cons_append, List.cons_prefix_cons] at h
      obtain ⟨rfl, h2⟩ := h
      rcases ih h2 with h3 | ⟨w3, rfl, hw3⟩
      · exact Or.inl (List.cons_prefix_cons.mpr ⟨rfl, h3⟩)
      · exact Or.inr ⟨w3, by simp, hw3⟩

theorem infix_append_cases {α : Type} {w a b : List α} (h : w <:+: a ++ b) :
    w <:+: a ∨ w <:+: b ∨
      ∃ w₁ w₂, w = w₁ ++ w₂ ∧ w₁ ≠ [] ∧ w₂ ≠ [] ∧ w₁ <:+ a ∧ w₂ <+: b := by
  induction a generalizing w with
  | nil => exact Or.inr (Or.inl (by simpa using h))
  | cons c a2 ih =>
    rw [List.cons_append, List.infix_cons_iff] at h
    rcases h with h | h
    · have h' : w <+: (c :: a2) ++ b := h
      rcases prefix_append_cases h' with h2 | ⟨w2, rfl, hw2⟩
      · exact Or.inl h2.isInfix
      · by_cases hw : w2 = []
        · subst hw
          exact Or.inl (by simp)
        · exact Or.inr (Or.inr ⟨c :: a2, w2, rfl, by simp, hw, List.suffix_refl _, hw2⟩)
    · rcases ih h with h2 | h2 | ⟨w1, w2, rfl, h3, h4, h5, h6⟩
      · exact Or.inl (List.infix_cons h2)
      · exact Or.inr (Or.inl h2)
      · exact Or.inr (Or.inr ⟨w1, w2, rfl, h3, h4, h5.trans (List.suffix_cons c a2), h6⟩)

theorem not_infix_append_replicate (w A B : Text) (n : Nat) (hn : 1 ≤ n) (c : Char)
    (hc : c ∉ w) (hA : ¬ w <:+: A) (hB : ¬ w <:+: B) :
    ¬ w <:+: A ++ (List.replicate n c ++ B) := by
  intro h
  have hcw : ∀ u : Text, u ≠ [] → u.Sublist (List.replicate n c) → c ∈ w → False := by
    intro u hu hsub hcw
    exact hc hcw
  rcases infix_append_cases h with h1 | h1 | ⟨w1, w2, heq, hne1, hne2, hs, hp⟩
  · exact hA h1
  · rcases infix_append_cases h1 with h2 | h2 | ⟨w1, w2, heq, hne1, hne2, hs, hp⟩
    · cases w with
      | nil => exact hB List.nil_infix
      | cons d w2 =>
        have hd : d ∈ List.replicate n c := h2.subset (List.mem_cons_self d w2)
        rw [List.eq_of_mem_replicate hd] at hc
        exact hc (List.mem_cons_self _ _)
    · exact hB h2
    · cases w1 with
      | nil => exact hne1 rfl
      | cons d w3 =>
        have hd : d ∈ List.replicate n c := hs.subset (List.mem_cons_self d w3)
        have hdc : d = c := List.eq_of_mem_replicate hd
        subst hdc
        exact hc (by rw [heq]; exact List.mem_append_left _ (List.mem_cons_self _ _))
  · rcases prefix_append_cases hp with h2 | ⟨w3, heq2, hw3⟩
    · cases hW : w2 with
      | nil => exact hne2 hW
      | cons d w4 =>
        subst hW
        have hd : d ∈ List.replicate n c := h2.subset (List.mem_cons_self d w4)
        have hdc : d = c := List.eq_of_mem_replicate hd
        subst hdc
        exact hc (by rw [heq]; exact List.mem_append_right _ (List.mem_cons_self _ _))
    · have hcw2 : c ∈ w2 := by
        rw [heq2]
        apply List.mem_append_left
        exact List.mem_replicate.mpr ⟨by omega, rfl⟩
      exact hc (by rw [heq]; exact List.mem_append_right _ hcw2)

theorem infix_append_right_of_infix {l B : Text} (A : Text) (h : l <:+: B) :
    l <:+: A ++ B :=
  h.trans (List.suffix_append A B).isInfix

/-! ## Block lemmas for bodies padded with a filler block of `z`s -/

theorem h2Scan_z_step (k : Nat) (b : Bool) (t : Text) :
    h2Scan (k + 1) b (Char.ofNat 122 :: t) = h2Scan k false t := by
  cases b <;> rfl

theorem h2Scan_replicate_z (n : Nat) (hn : 1 ≤ n) :
    ∀ fuel b rest, h2Scan (n + fuel) b (List.replicate n (Char.ofNat 122) ++ rest) =
      h2Scan fuel false rest := by
  induction n with
  | zero => omega
  | succ m ih =>
    intro fuel b rest
    rw [List.replicate_succ, List.cons_append,
      show m + 1 + fuel = (m + fuel) + 1 by omega, h2Scan_z_step]
    cases m with
    | zero => simp
    | succ m2 => exact ih (by omega) fuel false rest

theorem lowerText_append (a b : Text) :
    lowerText (a ++ b) = lowerText a ++ lowerText b := by
  simp [lowerText]

theorem lowerText_replicate_z (n : Nat) :
    lowerText (List.replicate n (Char.ofNat 122)) = List.replicate n (Char.ofNat 122) := by
  simp only [lowerText, List.map_replicate]
  rfl

/-- A body consisting of 1000 `z`s followed by `tail` validates to
`(True, [])` provided the tail supplies the disclaimer and the headings,
no forbidden word occurs in `title + " "` or in the tail, and no forbidden
word contains a `z`. -/
theorem validate_z_body (title tl : Text)
    (hforbT : ∀ w ∈ FORBIDDEN_WORDS, ¬ lowerText w <:+: lowerText (title ++ (" ".toList)))
    (hforbTail : ∀ w ∈ FORBIDDEN_WORDS, ¬ lowerText w <:+: lowerText tl)
    (hz : ∀ w ∈ FORBIDDEN_WORDS, (Char.ofNat 122) ∉ lowerText w)
    (hdisc : required_disclaimer <:+: tl)
    (hcount : 3 ≤ h2Scan (tl.length + 1) false tl) :
    validate title (List.replicate 1000 (Char.ofNat 122) ++ tl) = (true, []) := by
  set body := List.replicate 1000 (Char.ofNat 122) ++ tl with hbody
  have hforb : _check_forbidden_words (title ++ (" ".toList) ++ body) = [] := by
    rw [_check_forbidden_words, List.filter_eq_nil_iff]
    intro w hw
    simp only [decide_eq_true_eq]
    show ¬ occursCI w (title ++ (" ".toList) ++ body)
    unfold occursCI
    rw [hbody, lowerText_append,
      show lowerText (List.replicate 1000 (Char.ofNat 122) ++ tl) =
        List.replicate 1000 (Char.ofNat 122) ++ lowerText tl by
          rw [lowerText_append, lowerText_replicate_z]]
    exact not_infix_append_replicate _ _ _ 1000 (by omega) _ (hz w hw) (hforbT w hw)
      (hforbTail w hw)
  have hdiscB : _check_disclaimer body = true := by
    rw [_check_disclaimer, decide_eq_true_eq, hbody]
    exact infix_append_right_of_infix _ hdisc
  have hcountB : countH2 body = h2Scan (tl.length + 1) false tl := by
    rw [countH2, hbody]
    rw [show (List.replicate 1000 (Char.ofNat 122) ++ tl).length = 1000 + tl.length by
      simp only [List.length_append, List.length_replicate], Nat.add_assoc]
    exact h2Scan_replicate_z 1000 (by omega) (tl.length + 1) true tl
  have hseoB : _check_seo_structure body = true := by
    rw [_check_seo_structure, decide_eq_true_eq, hcountB]
    exact hcount
  have hlenB : ¬ body.length < 1000 := by
    rw [hbody]
    simp only [List.length_append, List.length_replicate]
    omega
  simp only [validate]
  rw [hforb, hdiscB, hseoB, if_neg hlenB]
  simp

/-! ## Claim theorems -/

/-- Claim C1: every sequence of successful allocate-and-record cycles
against one ledger records pairwise-distinct topic keys
`(mbti, love_situation, card_name)`, and `generate_unique_topic` never
returns a topic whose key is already present in the ledger. -/
theorem claim_unique_topic_keys :
    (∀ (db : Ledger) (cis : List CycleInput),
      (cycleKeys db cis).Pairwise (fun a b => a ≠ b)) ∧
    (∀ (db : Ledger) (draws : Nat → Draw) (t : Topic),
      generate_unique_topic db draws = Except.ok t →
      is_topic_used db t.mbti t.love_situation t.card_name = false) := by
  constructor
  · intro db cis
    induction cis generalizing db with
    | nil => simp [cycleKeys]
    | cons ci rest ih =>
      rw [cycleKeys]
      cases hg : generate_unique_topic db ci.draws with
      | error e => simp
      | ok t =>
        obtain ⟨hfresh, hcard⟩ := generate_unique_topic_fresh db ci.draws t hg
        refine List.pairwise_cons.mpr ⟨?_, ih _⟩
        intro k hk heq
        have hkfresh := cycleKeys_fresh rest _ k hk
        rw [save_published_topic, is_topic_used_append] at hkfresh
        have : is_topic_used [⟨t.mbti, t.love_situation, t.tarot_card, ci.title,
            ci.post_id, ci.post_url, ci.status, ci.error_message⟩] k.1 k.2.1 k.2.2 = false :=
          (Bool.or_eq_false_iff.mp hkfresh).2
        rw [← heq] at this
        simp [is_topic_used, hcard] at this
  · intro db draws t h
    exact (generate_unique_topic_fresh db draws t h).1

/-- Claim C1 witness: on the empty ledger the allocator returns a topic,
and its key is not present. -/
theorem claim_unique_topic_keys_witness :
    generate_unique_topic [] (fun _ => ⟨0, 0, 0, 0⟩) =
      Except.ok (topicOfDraw ⟨0, 0, 0, 0⟩) ∧
    is_topic_used [] (topicOfDraw ⟨0, 0, 0, 0⟩).mbti
      (topicOfDraw ⟨0, 0, 0, 0⟩).love_situation
      (topicOfDraw ⟨0, 0, 0, 0⟩).card_name = false := by
  refine ⟨rfl, claim_unique_topic_keys.2 [] _ _ rfl⟩

/-- Claim C4: when every combination of the topic space is already used,
every probe collides, so `generate_unique_topic` performs its 100 bounded
probes and fails with the exhaustion `RuntimeError`. -/
theorem claim_exhaustion_bounded (db : Ledger) (draws : Nat → Draw)
    (hall : ∀ m ∈ MBTI_TYPES, ∀ l ∈ LOVE_SITUATIONS, ∀ c,
      (c ∈ TAROT_MAJOR_ARCANA ∨ c ∈ NUMEROLOGY_NUMBERS ∨ c ∈ ORACLE_CARDS) →
      is_topic_used db m l c = true) :
    generate_unique_topic db draws = Except.error exhaustionMsg ∧
    probesUsed db draws ≤ 100 := by
  have hstep : ∀ fuel attempt,
      genLoop db draws fuel attempt = (Except.error exhaustionMsg, attempt + fuel) := by
    intro fuel
    induction fuel with
    | zero => intro attempt; simp [genLoop]
    | succ n ih =>
      intro attempt
      rw [genLoop]
      obtain ⟨-, hcard, hmbti, hlove⟩ := topicOfDraw_card (draws attempt)
      have hused := hall _ hmbti _ hlove _ hcard
      simp only [hused, if_true, ih]
      ring_nf
  constructor
  · unfold generate_unique_topic; rw [hstep]
  · unfold probesUsed; rw [hstep]

theorem dbAllUsed_covers : ∀ m ∈ MBTI_TYPES, ∀ l ∈ LOVE_SITUATIONS, ∀ c,
    (c ∈ TAROT_MAJOR_ARCANA ∨ c ∈ NUMEROLOGY_NUMBERS ∨ c ∈ ORACLE_CARDS) →
    is_topic_used dbAllUsed m l c = true := by
  intro m hm l hl c hc
  have hcm : c ∈ allCardNames := by
    unfold allCardNames
    rcases hc with h | h | h <;> simp [h]
  rw [is_topic_used, List.any_eq_true]
  refine ⟨⟨m, l, c, [], none, none, "draft".toList, none⟩, ?_, by simp⟩
  unfold dbAllUsed
  exact List.mem_flatMap.mpr ⟨m, hm,
    List.mem_flatMap.mpr ⟨l, hl, List.mem_map.mpr ⟨c, hcm, rfl⟩⟩⟩

/-- Claim C4 witness: on the fully-used ledger the allocator fails with
the exhaustion error within its 100-probe bound. -/
theorem claim_exhaustion_bounded_witness :
    generate_unique_topic dbAllUsed (fun _ => ⟨0, 0, 0, 0⟩) = Except.error exhaustionMsg ∧
    probesUsed dbAllUsed (fun _ => ⟨0, 0, 0, 0⟩) ≤ 100 :=
  claim_exhaustion_bounded dbAllUsed (fun _ => ⟨0, 0, 0, 0⟩) dbAllUsed_covers

/-- Claim C10: `get_stats` never divides by zero — the success rate is `0`
on an empty ledger and otherwise `round(successes / total * 100, 2)` where
only `publish` and `draft` rows count as successes; rows whose status is
`failed` or `future` never contribute. -/
theorem claim_stats_success_rate (db : Ledger) :
    ((get_stats db).success_rate =
      if db.length = 0 then 0
      else round2 (((statusCount db ("publish".toList) +
        statusCount db ("draft".toList) : Nat) : ℚ) / (db.length : ℚ) * 100)) ∧
    ((∀ e ∈ db, e.status = ("failed".toList) ∨ e.status = ("future".toList)) →
      (get_stats db).success_rate = 0) := by
  constructor
  · unfold get_stats
    by_cases h : db.length = 0
    · simp [h]
    · simp only [h, if_false]
      rw [if_pos (Nat.pos_of_ne_zero h)]
  · intro hfail
    have hpub : statusCount db ("publish".toList) = 0 := by
      rw [statusCount, List.countP_eq_zero]
      intro e he
      rcases hfail e he with h | h <;> rw [h] <;> decide
    have hdr : statusCount db ("draft".toList) = 0 := by
      rw [statusCount, List.countP_eq_zero]
      intro e he
      rcases hfail e he with h | h <;> rw [h] <;> decide
    unfold get_stats
    simp only [hpub, hdr]
    split
    · norm_num [round2, roundHalfEven]
    · rfl

theorem publish_post_ok_status (s : Text) (a : Nat → Attempt) (r : PostResult)
    (h : publish_post s a = Except.ok r) : r.status = s := by
  unfold publish_post at h
  cases h0 : a 0 <;> rw [h0] at h
  · cases h; rfl
  · cases h1 : a 1 <;> rw [h1] at h
    · cases h; rfl
    · cases h2 : a 2 <;> rw [h2] at h
      · cases h; rfl
      · cases h

theorem fb_ok_status (p : Text) (aP aD : Nat → Attempt) (r : PostResult) (b : Bool)
    (h : (publish_with_fallback p aP aD).1 = FBResult.ok r b) :
    r.status = p ∨ r.status = "draft".toList := by
  unfold publish_with_fallback at h
  cases h0 : publish_post p aP <;> rw [h0] at h
  · cases h1 : publish_post ("draft".toList) aD <;> rw [h1] at h
    · cases h
    · cases h
      exact Or.inr (publish_post_ok_status _ _ _ h1)
  · cases h
    exact Or.inl (publish_post_ok_status _ _ _ h0)

/-- Claim C7: when the preferred-status publish fails after its bounded
retries, exactly one fallback `publish_post` call at status `draft` is
made; a successful fallback yields the draft outcome with
`fallback_used = true`, and a failed fallback yields the
`{success: False, error: ...}` value (no exception), so the caller still
reaches the RECORD step. -/
theorem claim_publish_fallback (preferred : Text) (aPref aDraft : Nat → Attempt)
    (hnd : preferred ≠ ("draft".toList))
    (hfail : ∃ e, publish_post preferred aPref = Except.error e) :
    (publish_with_fallback preferred aPref aDraft).2 = [preferred, "draft".toList] ∧
    (∀ r, publish_post ("draft".toList) aDraft = Except.ok r →
      (publish_with_fallback preferred aPref aDraft).1 = FBResult.ok r true ∧
      r.status = "draft".toList) ∧
    (∀ e, publish_post ("draft".toList) aDraft = Except.error e →
      (publish_with_fallback preferred aPref aDraft).1 = FBResult.failed e) := by
  obtain ⟨e0, he0⟩ := hfail
  refine ⟨?_, ?_, ?_⟩
  · unfold publish_with_fallback
    rw [he0]
    cases h1 : publish_post ("draft".toList) aDraft <;> rfl
  · intro r hr
    constructor
    · unfold publish_with_fallback
      rw [he0, hr]
    · exact publish_post_ok_status _ _ _ hr
  · intro e he
    unfold publish_with_fallback
    rw [he0, he]

/-- Claim C7 witness: with a persistently failing preferred-status publish
and a succeeding draft publish, the fallback produces the draft outcome. -/
theorem claim_publish_fallback_witness :
    (publish_with_fallback ("publish".toList) aPrefFail aDraftOk).2 =
      [("publish".toList), "draft".toList] ∧
    (publish_with_fallback ("publish".toList) aPrefFail aDraftOk).1 =
      FBResult.ok ⟨7, "http://x".toList, "draft".toList⟩ true ∧
    (⟨7, "http://x".toList, "draft".toList⟩ : PostResult).status = "draft".toList := by
  have h := claim_publish_fallback ("publish".toList) aPrefFail aDraftOk
    (by decide) ⟨"HTTP 500".toList, rfl⟩
  exact ⟨h.1, h.2.1 ⟨7, "http://x".toList, "draft".toList⟩ rfl⟩

/-- Claim C3: a run that aborts on allocation or generation writes no
ledger entry; a run whose generation succeeds writes exactly one entry for
the allocated topic — carrying the status of the publish result on success and
status `failed` with the captured error message on publish failure. -/
theorem claim_record_one_entry (st : PublisherState) (env : RunEnv) :
    (∀ e, generate_unique_topic st.db env.draws = Except.error e →
      (run st env).newEntries = [] ∧ (run st env).state.db = st.db ∧
      (run st env).success = false) ∧
    (∀ e, env.contentResult = Except.error e →
      (run st env).newEntries = [] ∧ (run st env).state.db = st.db ∧
      (run st env).success = false) ∧
    (∀ t title content, generate_unique_topic st.db env.draws = Except.ok t →
      env.contentResult = Except.ok (title, content) →
      ∃ en, (run st env).newEntries = [en] ∧
        (run st env).state.db = st.db ++ [en] ∧
        en.mbti = t.mbti ∧ en.love_situation = t.love_situation ∧
        en.tarot_card = t.tarot_card ∧ en.title = title ∧
        (∀ r b, (run st env).pubResult = some (FBResult.ok r b) →
          en.status = r.status ∧ en.error_message = none) ∧
        (∀ msg, (run st env).pubResult = some (FBResult.failed msg) →
          en.status = ("failed".toList) ∧ en.error_message = some msg)) := by
  refine ⟨?_, ?_, ?_⟩
  · intro e he
    simp [run, he]
  · intro e he
    cases hg : generate_unique_topic st.db env.draws with
    | error e' => simp [run, hg]
    | ok t => simp [run, hg, he]
  · intro t title content hg hc
    simp only [run, hg, hc]
    generalize hfb : (publish_with_fallback _ env.prefAttempts env.draftAttempts).1 = fbr
    cases fbr with
    | ok r b =>
      simp only [apply_ite PublisherState.db, ite_self]
      refine ⟨_, rfl, rfl, rfl, rfl, rfl, rfl, ?_, ?_⟩
      · intro r' b' hr'
        simp only [Option.some.injEq] at hr'
        cases hr'
        exact ⟨rfl, rfl⟩
      · intro msg hmsg
        simp at hmsg
    | failed msg =>
      simp only [apply_ite PublisherState.db, ite_self]
      refine ⟨_, rfl, rfl, rfl, rfl, rfl, rfl, ?_, ?_⟩
      · intro r' b' hr'
        simp at hr'
      · intro msg' hmsg'
        simp only [Option.some.injEq] at hmsg'
        cases hmsg'
        exact ⟨rfl, rfl⟩

/-- Claim C2: when the content is still invalid after the single
sanitize-and-revalidate pass, the run does not abort: it publishes with the
preferred status forced to `draft`, and the recorded status is `draft` or
`failed` — never `publish` or `future`. -/
theorem claim_status_downgrade (st : PublisherState) (env : RunEnv) (title content0 : Text)
    (hsan : st.auto_sanitize = true)
    (hc : env.contentResult = Except.ok (title, content0))
    (hgen : ∃ t, generate_unique_topic st.db env.draws = Except.ok t)
    (hv1 : (validate title content0).1 = false)
    (hv2 : (validate title (sanitize_content content0)).1 = false) :
    (run st env).preferredUsed = some ("draft".toList) ∧
    (run st env).newEntries.length = 1 ∧
    (∀ e ∈ (run st env).newEntries,
      (e.status = ("draft".toList) ∨ e.status = ("failed".toList)) ∧
      e.status ≠ ("publish".toList) ∧ e.status ≠ ("future".toList)) := by
  obtain ⟨t, hg⟩ := hgen
  simp only [run, hg, hc, hv1, hsan, Bool.false_eq_true, if_false, if_true]
  generalize hfb : (publish_with_fallback _ env.prefAttempts env.draftAttempts).1 = fbr
  rw [hv2] at hfb ⊢
  simp only [Bool.false_eq_true, if_false] at hfb ⊢
  cases fbr with
  | ok r b =>
    refine ⟨rfl, rfl, ?_⟩
    intro e he
    simp only [List.mem_singleton] at he
    subst he
    have hst : r.status = ("draft".toList) := by
      rcases fb_ok_status _ _ _ _ _ hfb with h | h <;> exact h
    refine ⟨Or.inl hst, ?_, ?_⟩ <;> simp only [hst] <;> decide
  | failed msg =>
    refine ⟨rfl, rfl, ?_⟩
    intro e he
    simp only [List.mem_singleton] at he
    subst he
    refine ⟨Or.inr rfl, ?_, ?_⟩ <;> show ("failed".toList : Text) ≠ _ <;> decide

/-- Claim C2 witness: a run of the `publish`-configured instance on
unfixable content publishes with preferred status `draft`. -/
theorem claim_status_downgrade_witness :
    (run stPub envBad).preferredUsed = some ("draft".toList) :=
  (claim_status_downgrade stPub envBad ("T".toList) ("x".toList) rfl rfl
    ⟨topicOfDraw ⟨0, 0, 0, 0⟩, rfl⟩ (by decide) (by decide)).1

/-- Claim C9: the validation-failure downgrade mutates the instance, not
the run: a run whose content stays invalid after sanitizing sets the
field `publish_status` of the instance to `draft`, and every later run on the
same instance then publishes with preferred status `draft` even when its
own content passes validation. -/
theorem claim_downgrade_persists (st : PublisherState) (env1 env2 : RunEnv)
    (title1 c1 : Text)
    (hnd : st.publish_status ≠ ("draft".toList))
    (hsan : st.auto_sanitize = true)
    (h1c : env1.contentResult = Except.ok (title1, c1))
    (h1g : ∃ t, generate_unique_topic st.db env1.draws = Except.ok t)
    (hv1 : (validate title1 c1).1 = false)
    (hv2 : (validate title1 (sanitize_content c1)).1 = false) :
    (run st env1).state.publish_status = ("draft".toList) ∧
    (∀ title2 c2 t2, env2.contentResult = Except.ok (title2, c2) →
      generate_unique_topic (run st env1).state.db env2.draws = Except.ok t2 →
      (validate title2 c2).1 = true →
      (run (run st env1).state env2).preferredUsed = some ("draft".toList)) := by
  obtain ⟨t, hg⟩ := h1g
  have hps : (run st env1).state.publish_status = ("draft".toList) := by
    simp only [run, hg, h1c, hv1, hsan, Bool.false_eq_true, if_false, if_true]
    generalize (publish_with_fallback _ env1.prefAttempts env1.draftAttempts).1 = fbr
    rw [hv2]
    simp only [Bool.false_eq_true, if_false]
    cases fbr <;> rfl
  refine ⟨hps, ?_⟩
  intro title2 c2 t2 h2c h2g hval2
  set S := (run st env1).state with hS
  simp only [run, h2g, h2c, hval2, if_true]
  generalize (publish_with_fallback _ env2.prefAttempts env2.draftAttempts).1 = fbr
  cases fbr <;> simp [hps]

theorem goodBody_valid : (validate ("T".toList) goodBody).1 = true := by
  have h := validate_z_body ("T".toList) goodTail (by decide) (by decide) (by decide)
    (by decide) (by decide)
  show (validate ("T".toList) (List.replicate 1000 (Char.ofNat 122) ++ goodTail)).1 = true
  rw [h]

/-- Claim C9 witness: after a downgraded run, a later run with valid
content still publishes with preferred status `draft`. -/
theorem claim_downgrade_persists_witness :
    (run (run stPub envBad).state envGood).preferredUsed = some ("draft".toList) := by
  refine (claim_downgrade_persists stPub envBad envGood ("T".toList) ("x".toList)
    (by decide) rfl rfl ⟨topicOfDraw ⟨0, 0, 0, 0⟩, rfl⟩ (by decide) (by decide)).2
    ("T".toList) goodBody (topicOfDraw ⟨1, 0, 0, 0⟩) rfl rfl goodBody_valid

/-- Claim C3 witness: a run whose generation succeeds writes exactly one
ledger entry. -/
theorem claim_record_one_entry_witness :
    (run stPub envBad).newEntries.length = 1 := by
  obtain ⟨en, hen, -, -, -, -, -, -, -⟩ :=
    (claim_record_one_entry stPub envBad).2.2 (topicOfDraw ⟨0, 0, 0, 0⟩)
      ("T".toList) ("x".toList) rfl rfl
  rw [hen]
  rfl

/-- Claim C10 witness: a one-row ledger whose row failed has success rate 0. -/
theorem claim_stats_success_rate_witness :
    (get_stats [⟨"INTJ".toList, [], [], [], none, none, "failed".toList, none⟩]).success_rate
      = 0 := by
  refine (claim_stats_success_rate _).2 ?_
  intro e he
  simp at he
  subst he
  exact Or.inl rfl

/-! ## Claim C5: the validation rules -/

theorem linesOf_replicate_z (n : Nat) (rest : Text) :
    linesOf (List.replicate n (Char.ofNat 122) ++ ('\n' :: rest)) =
      (List.replicate n (Char.ofNat 122)) :: linesOf rest := by
  induction n with
  | zero =>
    simp only [List.replicate_zero, List.nil_append, linesOf, if_pos rfl, if_true]
  | succ m ih =>
    rw [List.replicate_succ, List.cons_append, linesOf]
    rw [if_neg (by decide), ih]

/-- Claim C5 counterexample: a body whose three headings use a tab after
`##` — `validate` returns `(True, [])`, yet rule (3) of the claim, read as
"lines matching the `"## "` prefix marker", fails, so the claimed
equivalence is false at this input. -/
theorem claim_validate_rules_counterexample :
    validate ("t".toList) ceBody = (true, []) ∧ ¬ claimHeadingRule ceBody := by
  constructor
  · exact validate_z_body ("t".toList) ceTail (by decide) (by decide) (by decide)
      (by decide) (by decide)
  · show ¬ claimHeadingRule (List.replicate 1000 (Char.ofNat 122) ++ ceTail)
    rw [claimHeadingRule,
      show ceTail = '\n' :: ("##\tA\n##\tB\n##\tC\n참고 자료일 뿐".toList) from rfl,
      linesOf_replicate_z, List.countP_cons]
    rw [show (("## ".toList).isPrefixOf (List.replicate 1000 (Char.ofNat 122))) = false
      from rfl]
    decide

/-- Claim C5 (amended): `validate(title, body)` returns `(True, [])` iff
(1) no forbidden word occurs case-insensitively in `title + " " + body`,
(2) the disclaimer occurs verbatim in `body`, (3) `body` has at least 3
matches of the multiline regex `^##\s+.+$` (i.e. `##` followed by
whitespace — not necessarily a space, and possibly spanning line breaks —
then at least one further character up to a line end), and (4)
`len(body) >= 1000`; when invalid, the issue list has one entry per
violated rule, in that fixed order. -/
theorem claim_validate_rules (title content : Text) :
    ((validate title content).1 = true ↔
      ((∀ w ∈ FORBIDDEN_WORDS, ¬ occursCI w (title ++ (" ".toList) ++ content)) ∧
        required_disclaimer <:+: content ∧
        3 ≤ countH2 content ∧
        1000 ≤ content.length)) ∧
    ((validate title content).2 = [] ↔ (validate title content).1 = true) ∧
    (validate title content).2 =
      (if (_check_forbidden_words (title ++ (" ".toList) ++ content)).isEmpty then []
       else
        [("Found forbidden words: ".toList) ++ List.intercalate (", ".toList)
          (_check_forbidden_words (title ++ (" ".toList) ++ content))]) ++
      (if required_disclaimer <:+: content then []
       else ["Missing required disclaimer".toList]) ++
      (if 3 ≤ countH2 content then []
       else ["Missing proper H2/H3 heading structure".toList]) ++
      (if content.length < 1000 then
        [("Content too short: ".toList) ++ (Nat.repr content.length).toList ++
          (" characters (minimum 1000)".toList)]
       else []) := by
  have hFiff : (_check_forbidden_words (title ++ (" ".toList) ++ content) = []) ↔
      (∀ w ∈ FORBIDDEN_WORDS, ¬ occursCI w (title ++ (" ".toList) ++ content)) := by
    rw [_check_forbidden_words, List.filter_eq_nil_iff]
    simp
  refine ⟨?_, ?_, ?_⟩
  · rw [← hFiff, ← Nat.not_lt]
    simp only [validate, _check_disclaimer, _check_seo_structure, decide_eq_true_eq]
    generalize _check_forbidden_words (title ++ (" ".toList) ++ content) = X
    by_cases h1 : X = [] <;>
    by_cases h2 : required_disclaimer <:+: content <;>
    by_cases h3 : 3 ≤ countH2 content <;>
    by_cases h4 : content.length < 1000 <;>
    simp [h1, h2, h3, h4, List.isEmpty_iff] <;> omega
  · simp only [validate]
    exact List.isEmpty_iff.symm
  · simp only [validate, _check_disclaimer, _check_seo_structure, decide_eq_true_eq]

/-- Claim C5 (amended) witness: a five-character body fails validation. -/
theorem claim_validate_rules_witness :
    (validate ("t".toList) ("short".toList)).1 = false := by
  have h := claim_validate_rules ("t".toList) ("short".toList)
  cases hb : (validate ("t".toList) ("short".toList)).1 with
  | false => rfl
  | true => exact absurd ((h.1.mp hb).2.2.2) (by decide)

/-! ## Claim C8: scheduling policy -/

theorem dtLt_replaceHM (now : DateTime) (h m : Nat) :
    dtLt now (replaceHM now h m) ↔ (now.hour < h ∨ (now.hour = h ∧ now.minute < m)) := by
  simp [dtLt, replaceHM]

/-- Claim C8: `should_schedule` returns `False` exactly inside a publish
window; otherwise `get_next_publish_time` is strictly later than `now`,
keeps the drawn minute, and lands on the next upcoming target hour
(10, 14 or 18), rolling over to 10:xx of the next day when no target time
remains today.  Both are pure functions of `now` and the random minute. -/
theorem claim_schedule_policy (now : DateTime) (m : Nat)
    (hh : now.hour < 24) (hm : m ≤ 59) :
    (should_schedule now = false ↔ inPublishWindow now.hour) ∧
    (should_schedule now = true →
      dtLt now (get_next_publish_time now m) ∧
      (get_next_publish_time now m).minute = m ∧
      ((get_next_publish_time now m).hour = 10 ∨ (get_next_publish_time now m).hour = 14 ∨
        (get_next_publish_time now m).hour = 18) ∧
      (now.hour < 9 → get_next_publish_time now m = ⟨now.day, 10, m, 0, 0⟩) ∧
      (11 ≤ now.hour ∧ now.hour < 13 →
        get_next_publish_time now m = ⟨now.day, 14, m, 0, 0⟩) ∧
      (15 ≤ now.hour ∧ now.hour < 17 →
        get_next_publish_time now m = ⟨now.day, 18, m, 0, 0⟩) ∧
      (19 ≤ now.hour → get_next_publish_time now m = ⟨now.day + 1, 10, m, 0, 0⟩)) := by
  constructor
  · rw [should_schedule, inPublishWindow]
    split <;> simp [*]
  · intro hs
    have hw : ¬ ((9 ≤ now.hour ∧ now.hour < 11) ∨ (13 ≤ now.hour ∧ now.hour < 15) ∨
        (17 ≤ now.hour ∧ now.hour < 19)) := by
      intro hcon
      rw [should_schedule, if_pos hcon] at hs
      exact Bool.false_ne_true hs
    have hcases : now.hour ≤ 8 ∨ (11 ≤ now.hour ∧ now.hour ≤ 12) ∨
        (15 ≤ now.hour ∧ now.hour ≤ 16) ∨ 19 ≤ now.hour := by omega
    rw [get_next_publish_time]
    rcases hcases with hA | hB | hC | hD
    · have h10 : dtLt now (replaceHM now 10 m) :=
        (dtLt_replaceHM now 10 m).mpr (Or.inl (by omega))
      rw [if_pos h10]
      refine ⟨h10, rfl, Or.inl rfl, fun _ => rfl, ?_, ?_, ?_⟩ <;>
        intro hc <;> exact absurd hc (by omega)
    · have h10 : ¬ dtLt now (replaceHM now 10 m) := by
        rw [dtLt_replaceHM]; omega
      have h14 : dtLt now (replaceHM now 14 m) :=
        (dtLt_replaceHM now 14 m).mpr (Or.inl (by omega))
      rw [if_neg h10, if_pos h14]
      refine ⟨h14, rfl, Or.inr (Or.inl rfl), ?_, fun _ => rfl, ?_, ?_⟩ <;>
        intro hc <;> exact absurd hc (by omega)
    · have h10 : ¬ dtLt now (replaceHM now 10 m) := by
        rw [dtLt_replaceHM]; omega
      have h14 : ¬ dtLt now (replaceHM now 14 m) := by
        rw [dtLt_replaceHM]; omega
      have h18 : dtLt now (replaceHM now 18 m) :=
        (dtLt_replaceHM now 18 m).mpr (Or.inl (by omega))
      rw [if_neg h10, if_neg h14, if_pos h18]
      refine ⟨h18, rfl, Or.inr (Or.inr rfl), ?_, ?_, fun _ => rfl, ?_⟩ <;>
        intro hc <;> exact absurd hc (by omega)
    · have h10 : ¬ dtLt now (replaceHM now 10 m) := by
        rw [dtLt_replaceHM]; omega
      have h14 : ¬ dtLt now (replaceHM now 14 m) := by
        rw [dtLt_replaceHM]; omega
      have h18 : ¬ dtLt now (replaceHM now 18 m) := by
        rw [dtLt_replaceHM]; omega
      rw [if_neg h10, if_neg h14, if_neg h18]
      refine ⟨?_, rfl, Or.inl rfl, ?_, ?_, ?_, fun _ => rfl⟩
      · unfold dtLt
        left
        show now.day < now.day + 1
        omega
      all_goals intro hc <;> exact absurd hc (by omega)

/-- Claim C8 witness: at 12:30:00 the scheduler defers, and the next slot
is 14:45 the same day. -/
theorem claim_schedule_policy_witness :
    (should_schedule ⟨5, 12, 30, 0, 0⟩ = false ↔ inPublishWindow 12) ∧
    dtLt ⟨5, 12, 30, 0, 0⟩ (get_next_publish_time ⟨5, 12, 30, 0, 0⟩ 45) ∧
    get_next_publish_time ⟨5, 12, 30, 0, 0⟩ 45 = ⟨5, 14, 45, 0, 0⟩ := by
  have h := claim_schedule_policy ⟨5, 12, 30, 0, 0⟩ 45 (by decide) (by decide)
  have h2 := h.2 (by decide)
  exact ⟨h.1, h2.1, h2.2.2.2.2.1 (by exact ⟨by decide, by decide⟩)⟩

/-! ## Claim C6: the sanitizer removes every forbidden occurrence -/

theorem isPrefixOf_eq (a b : Text) : a.isPrefixOf b = true ↔ a <+: b :=
  List.isPrefixOf_iff_prefix

theorem lowerText_ne_nil {k : Text} (hk : k ≠ []) : lowerText k ≠ [] := by
  simpa [lowerText, List.map_eq_nil_iff] using hk

theorem lowerText_length (s : Text) : (lowerText s).length = s.length := by
  simp [lowerText]

theorem suffix_eq_drop (t l : Text) (h : t <:+ l) :
    t = l.drop (l.length - t.length) := by
  obtain ⟨u, rfl⟩ := h
  rw [List.length_append, Nat.add_sub_cancel, List.drop_left]

theorem suffix_lowerText (t s : Text) (h : t <:+ lowerText s) :
    ∃ u, u <:+ s ∧ t = lowerText u := by
  refine ⟨s.drop ((lowerText s).length - t.length), List.drop_suffix _ _, ?_⟩
  rw [lowerText, List.map_drop, ← lowerText]
  exact suffix_eq_drop t (lowerText s) h

theorem lowerText_suffix {a b : Text} (h : a <:+ b) : lowerText a <:+ lowerText b := by
  obtain ⟨u, rfl⟩ := h
  rw [lowerText_append]
  exact List.suffix_append _ _

/-- First-match decomposition of `replaceAll`: either no position of `s`
matches (and the text is unchanged), or `s` splits as `a ++ b` with the
first match at the head of `b`. -/
theorem replaceAll_decomp (k v : Text) (hk : k ≠ []) (s : Text) :
    (replaceAll k v s = s ∧ ∀ t, t <:+ s → ¬ (lowerText k) <+: lowerText t) ∨
    ∃ a b, s = a ++ b ∧ (lowerText k) <+: lowerText b ∧
      (∀ t, t <:+ a → t ≠ [] → ¬ (lowerText k) <+: lowerText (t ++ b)) ∧
      replaceAll k v s = a ++ v ++ replaceAll k v (b.drop k.length) := by
  induction s with
  | nil =>
    left
    refine ⟨replaceAll_nil k v, ?_⟩
    intro t ht hp
    rw [List.suffix_nil.mp ht] at hp
    exact lowerText_ne_nil hk (List.prefix_nil.mp (by simpa [lowerText] using hp))
  | cons c t ih =>
    by_cases hb : ((lowerText k).isPrefixOf (lowerText (c :: t)) && !k.isEmpty) = true
    · right
      refine ⟨[], c :: t, rfl, ?_, ?_, ?_⟩
      · exact (isPrefixOf_eq _ _).mp (Bool.and_elim_left hb)
      · intro t2 ht2 hne
        exact absurd (List.suffix_nil.mp ht2) hne
      · rw [replaceAll_cons, if_pos hb, List.nil_append]
    · have hnp : ¬ (lowerText k) <+: lowerText (c :: t) := by
        intro hp
        apply hb
        rw [Bool.and_eq_true, isPrefixOf_eq]
        refine ⟨hp, ?_⟩
        simp [List.isEmpty_iff, hk]
      rcases ih with ⟨heq, hmf⟩ | ⟨a, b, hsplit, hkb, hmf, heq⟩
      · left
        refine ⟨?_, ?_⟩
        · rw [replaceAll_cons, if_neg hb, heq]
        · intro t2 ht2
          rcases List.suffix_cons_iff.mp ht2 with rfl | ht3
          · exact hnp
          · exact hmf _ ht3
      · right
        refine ⟨c :: a, b, by rw [hsplit, List.cons_append], hkb, ?_, ?_⟩
        · intro t2 ht2 hne
          rcases List.suffix_cons_iff.mp ht2 with rfl | ht3
          · rw [List.cons_append, ← hsplit]
            exact hnp
          · exact hmf _ ht3 hne
        · rw [replaceAll_cons, if_neg hb, heq]
          rfl

/-- Core lemma: under `SafePair X k v`, a `replaceAll k v` pass yields a
text with no occurrence of `X`, provided either `X` is the key being
replaced or `X` did not occur beforehand. -/
theorem replaceAll_no_occurrence (k v X : Text) (hsafe : SafePair X k v) :
    ∀ s, (X = lowerText k ∨ ¬ X <:+: lowerText s) →
      ¬ X <:+: lowerText (replaceAll k v s) := by
  obtain ⟨hk, hv, hX, hA, hB, hC, hD⟩ := hsafe
  have hlv : (lowerText v).length ≥ 1 := by
    cases hvv : v with
    | nil => exact absurd hvv hv
    | cons a l => simp [lowerText, hvv]
  suffices h : ∀ n s, s.length ≤ n → (X = lowerText k ∨ ¬ X <:+: lowerText s) →
      ¬ X <:+: lowerText (replaceAll k v s) by
    intro s
    exact h s.length s le_rfl
  intro n
  induction n with
  | zero =>
    intro s hs hside hocc
    rw [List.length_eq_zero.mp (Nat.le_zero.mp hs)] at hocc
    rw [replaceAll_nil] at hocc
    exact hX (List.infix_nil.mp (by simpa [lowerText] using hocc))
  | succ n ih =>
    intro s hs hside hocc
    rcases replaceAll_decomp k v hk s with ⟨heq, hmf⟩ | ⟨a, b, hsplit, hkb, hmf, heq⟩
    · rw [heq] at hocc
      rcases hside with hXk | hns
      · obtain ⟨t2, hpre, hsuf⟩ := List.infix_iff_prefix_suffix.mp hocc
        obtain ⟨u, hu, rfl⟩ := suffix_lowerText t2 s hsuf
        rw [hXk] at hpre
        exact hmf u hu hpre
      · exact hns hocc
    · rw [heq] at hocc
      rw [lowerText_append, lowerText_append, List.append_assoc] at hocc
      have hblen : k.length ≤ b.length := by
        have := hkb.length_le
        simpa [lowerText_length] using this
      have hk1 : 1 ≤ k.length := by
        cases hkk : k with
        | nil => exact absurd hkk hk
        | cons x l => simp
      rcases infix_append_cases hocc with h1 | h1 | ⟨w1, w2, hXeq, hne1, hne2, hs1, hp1⟩
      · -- occurrence inside the match-free region `a`
        rcases hside with hXk | hns
        · obtain ⟨t2, hpre, hsuf⟩ := List.infix_iff_prefix_suffix.mp h1
          obtain ⟨u, hu, rfl⟩ := suffix_lowerText t2 a hsuf
          have hune : u ≠ [] := by
            intro hu0
            rw [hu0] at hpre
            exact hX (List.prefix_nil.mp (by simpa [lowerText] using hpre))
          apply hmf u hu hune
          rw [lowerText_append]
          rw [hXk] at hpre
          exact hpre.trans (List.prefix_append _ _)
        · apply hns
          rw [hsplit, lowerText_append]
          exact h1.trans (List.prefix_append _ _).isInfix
      · rcases infix_append_cases h1 with h2 | h2 | ⟨w1, w2, hXeq, hne1, hne2, hs1, hp1⟩
        · exact hA h2
        · -- occurrence inside the recursive tail
          refine ih (b.drop k.length) ?_ ?_ h2
          · have : s.length ≤ n + 1 := hs
            rw [hsplit, List.length_append] at this
            simp only [List.length_drop]
            omega
          · rcases hside with hXk | hns
            · exact Or.inl hXk
            · refine Or.inr fun hxo => hns ?_
              have hsfx : b.drop k.length <:+ s := by
                rw [hsplit]
                exact (List.drop_suffix _ _).trans (List.suffix_append _ _)
              exact hxo.trans (lowerText_suffix hsfx).isInfix
        · -- occurrence starting inside the replacement block
          have hw1X : w1 <+: X := by
            rw [hXeq]
            exact List.prefix_append _ _
          have hw1len : w1.length ≤ (lowerText v).length := hs1.length_le
          have hw1pos : 1 ≤ w1.length := by
            cases hww : w1 with
            | nil => exact absurd hww hne1
            | cons x l => simp
          have hdropw : (lowerText v).drop ((lowerText v).length - w1.length) = w1 :=
            (suffix_eq_drop w1 (lowerText v) hs1).symm
          have := hB ((lowerText v).length - w1.length) (by omega) (by rw [hdropw]; exact hw1X)
          rw [hdropw] at this
          rw [this] at hXeq
          have : w2 = [] := by
            have hlen := congrArg List.length hXeq
            rw [List.length_append] at hlen
            have : w2.length = 0 := by omega
            exact List.length_eq_zero.mp this
          exact hne2 this
      · -- occurrence starting inside `a` and crossing into the blocks
        rcases prefix_append_cases hp1 with h2 | ⟨w3, hw2eq, hw3⟩
        · -- it ends inside the replacement block
          have hw2X : w2 <:+ X := by
            rw [hXeq]
            exact List.suffix_append _ _
          have hw2len : w2.length ≤ (lowerText v).length := h2.length_le
          have hw2pos : 1 ≤ w2.length := by
            cases hww : w2 with
            | nil => exact absurd hww hne2
            | cons x l => simp
          have htakew : (lowerText v).take (w2.length - 1 + 1) = w2 := by
            rw [show w2.length - 1 + 1 = w2.length by omega]
            exact (List.prefix_iff_eq_take.mp h2).symm
          have := hC (w2.length - 1) (by omega) (by rw [htakew]; exact hw2X)
          rw [htakew] at this
          rw [this] at hXeq
          have : w1 = [] := by
            have hlen := congrArg List.length hXeq
            rw [List.length_append] at hlen
            have : w1.length = 0 := by omega
            exact List.length_eq_zero.mp this
          exact hne1 this
        · -- it runs past the whole replacement block
          rw [hw2eq] at hXeq
          have hw1pos : 1 ≤ w1.length := by
            cases hww : w1 with
            | nil => exact absurd hww hne1
            | cons x l => simp
          have hXdrop : X.drop w1.length = lowerText v ++ w3 := by
            rw [hXeq]
            exact List.drop_left _ _
          have hi : w1.length - 1 < X.length := by
            have hlen := congrArg List.length hXeq
            rw [List.length_append, List.length_append] at hlen
            omega
          apply hD (w1.length - 1) hi
          rw [show w1.length - 1 + 1 = w1.length by omega, hXdrop]
          exact List.prefix_append _ _

theorem replaceAll_id (k v s : Text) (hk : k ≠ [])
    (h : ¬ lowerText k <:+: lowerText s) : replaceAll k v s = s := by
  rcases replaceAll_decomp k v hk s with ⟨heq, -⟩ | ⟨a, b, hsplit, hkb, -, -⟩
  · exact heq
  · exfalso
    apply h
    rw [hsplit, lowerText_append]
    exact infix_append_right_of_infix _ hkb.isInfix

theorem sanitize_content_eq_foldl (c : Text) :
    sanitize_content c = REPLACEMENTS.foldl sanitizeStep c := rfl

theorem foldl_removes (X : Text) :
    ∀ ps : List (Text × Text), ∀ s : Text,
      ((∃ p ∈ ps, X = lowerText p.1) ∨ ¬ X <:+: lowerText s) →
      (∀ p ∈ ps, SafePair X p.1 p.2) →
      ¬ X <:+: lowerText (ps.foldl sanitizeStep s) := by
  intro ps
  induction ps with
  | nil =>
    intro s hside hsafe
    rcases hside with ⟨p, hp, -⟩ | hns
    · exact absurd hp (List.not_mem_nil p)
    · simpa using hns
  | cons p rest ih =>
    intro s hside hsafe
    rw [List.foldl_cons]
    have hpstep := replaceAll_no_occurrence p.1 p.2 X (hsafe p (List.mem_cons_self _ _)) s
    rcases hside with ⟨q, hq, hXq⟩ | hns
    · rcases List.mem_cons.mp hq with rfl | hq2
      · exact ih (replaceAll q.1 q.2 s) (Or.inr (hpstep (Or.inl hXq)))
          (fun r hr => hsafe r (List.mem_cons_of_mem _ hr))
      · exact ih (replaceAll p.1 p.2 s) (Or.inl ⟨q, hq2, hXq⟩)
          (fun r hr => hsafe r (List.mem_cons_of_mem _ hr))
    · exact ih (replaceAll p.1 p.2 s) (Or.inr (hpstep (Or.inr hns)))
        (fun r hr => hsafe r (List.mem_cons_of_mem _ hr))

theorem foldl_id (body : Text) :
    ∀ ps : List (Text × Text),
      (∀ p ∈ ps, p.1 ≠ []) →
      (∀ p ∈ ps, ¬ lowerText p.1 <:+: lowerText body) →
      ps.foldl sanitizeStep body = body := by
  intro ps
  induction ps with
  | nil => intro _ _; rfl
  | cons p rest ih =>
    intro hne hocc
    rw [List.foldl_cons,
      show sanitizeStep body p = replaceAll p.1 p.2 body from rfl,
      replaceAll_id p.1 p.2 body (hne p (List.mem_cons_self _ _))
        (hocc p (List.mem_cons_self _ _))]
    exact ih (fun q hq => hne q (List.mem_cons_of_mem _ hq))
      (fun q hq => hocc q (List.mem_cons_of_mem _ hq))

/-- Claim C6: for every body, the sanitized text contains no
case-insensitive occurrence of any forbidden term (the replacements may
appear instead), and `sanitize_content` is the identity on a body
containing no forbidden term. -/
theorem claim_sanitize_removes_forbidden :
    (∀ body : Text, ∀ w ∈ FORBIDDEN_WORDS, ¬ occursCI w (sanitize_content body)) ∧
    (∀ body : Text, (∀ w ∈ FORBIDDEN_WORDS, ¬ occursCI w body) →
      sanitize_content body = body) := by
  constructor
  · intro body w hw
    show ¬ lowerText w <:+: lowerText (sanitize_content body)
    rw [sanitize_content_eq_foldl]
    have hmem : ∃ p ∈ REPLACEMENTS, lowerText w = lowerText p.1 := by
      fin_cases hw <;> decide
    obtain ⟨p, hp, hXp⟩ := hmem
    refine foldl_removes (lowerText w) REPLACEMENTS body (Or.inl ⟨p, hp, hXp⟩) ?_
    fin_cases hw <;> decide
  · intro body hocc
    rw [sanitize_content_eq_foldl]
    refine foldl_id body REPLACEMENTS (by decide) ?_
    intro p hp
    have hpF : p.1 ∈ FORBIDDEN_WORDS := by
      fin_cases hp <;> decide
    exact hocc p.1 hpF

/-- Claim C6 witness: sanitizing a body carrying several forbidden terms
removes them all, and a clean body is left unchanged. -/
theorem claim_sanitize_removes_forbidden_witness :
    (¬ occursCI ("certain".toList) (sanitize_content ("100% Certainly GUARANTEED".toList))) ∧
    (¬ occursCI ("100%".toList) (sanitize_content ("100% Certainly GUARANTEED".toList))) ∧
    sanitize_content ("hello world".toList) = ("hello world".toList) := by
  refine ⟨?_, ?_, ?_⟩
  · exact claim_sanitize_removes_forbidden.1 ("100% Certainly GUARANTEED".toList)
      ("certain".toList) (by decide)
  · exact claim_sanitize_removes_forbidden.1 ("100% Certainly GUARANTEED".toList)
      ("100%".toList) (by decide)
  · exact claim_sanitize_removes_forbidden.2 ("hello world".toList) (by decide)

end Fortunass
